import Mathlib

/-!
Verification of the cartridge loading calculator.

This file is a shallow embedding, over the real and complex numbers, of the
numeric core of `cartridge_loading.py`: the response calculator
`cartridge_frequency_response`, the computational content of the report
renderer `plot_cartridge_response` (peak statistics, damping label and
interpretation tier), and the CLI/interactive option parsing.  The numpy
library calls `np.logspace` and `np.argmax` are modelled by their documented
semantics.  Theorems below settle the specified behaviour.
-/

noncomputable section

/-- One sample of `np.logspace a b n` (endpoint inclusive): ten raised to
`a + i * (b - a) / (n - 1)`, the documented linspace-of-exponents formula. -/
def logspacePoint (a b : ℝ) (n : ℕ) (i : ℕ) : ℝ :=
  (10 : ℝ) ^ (a + (i : ℝ) * (b - a) / ((n : ℝ) - 1))

/-- The swept frequency list of the calculator:
`np.logspace(np.log10(lo), np.log10(hi), n)`. -/
def frequencies (lo hi : ℝ) (n : ℕ) : List ℝ :=
  (List.range n).map (logspacePoint (Real.logb 10 lo) (Real.logb 10 hi) n)

/-- Angular frequency `omega = 2 * pi * f`. -/
def omega (f : ℝ) : ℝ := 2 * Real.pi * f

/-- Cartridge impedance `Z_cart = R_cart + j*omega*L`. -/
def Z_cart (R_cart L w : ℝ) : ℂ :=
  (R_cart : ℂ) + Complex.I * (w : ℂ) * (L : ℂ)

/-- Capacitor impedance `Z_cap = 1 / (j*omega*C)`. -/
def Z_cap (C w : ℝ) : ℂ :=
  1 / (Complex.I * (w : ℂ) * (C : ℂ))

/-- Load impedance as the code computes it:
`Z_load = (R_load * Z_cap) / (R_load + Z_cap)`. -/
def Z_load (R_load C w : ℝ) : ℂ :=
  ((R_load : ℂ) * Z_cap C w) / ((R_load : ℂ) + Z_cap C w)

/-- Transfer function `H = Z_load / (Z_cart + Z_load)`. -/
def H (R_cart L R_load C w : ℝ) : ℂ :=
  Z_load R_load C w / (Z_cart R_cart L w + Z_load R_load C w)

/-- Pointwise magnitude in dB: `20 * log10 |H|`. -/
def magnitude_dB_at (R_cart L R_load C w : ℝ) : ℝ :=
  20 * Real.logb 10 (Complex.abs (H R_cart L R_load C w))

/-- Pointwise phase in degrees: `np.angle(H) * 180 / pi`, where `np.angle`
is `atan2(Im, Re)` with principal value, embedded as `Complex.arg`. -/
def phase_deg_at (R_cart L R_load C w : ℝ) : ℝ :=
  (H R_cart L R_load C w).arg * 180 / Real.pi

/-- Result record of `cartridge_frequency_response`. -/
structure FrequencyResponse where
  frequencies : List ℝ
  magnitude_dB : List ℝ
  phase_deg : List ℝ
  f_res_ideal : ℝ
  Q : ℝ

/-- The response calculator, transcribed from `cartridge_frequency_response`:
unit conversion to SI, log-spaced sweep, complex voltage divider, magnitude
and phase arrays, ideal LC resonance and approximate quality factor. -/
def cartridge_frequency_response (L_cart_mH R_cart_ohms R_load_kohms C_total_pF : ℝ)
    (lo hi : ℝ) (num_points : ℕ) : FrequencyResponse :=
  let L := L_cart_mH * 1e-3
  let R_cart := R_cart_ohms
  let R_load := R_load_kohms * 1e3
  let C := C_total_pF * 1e-12
  let freqs := frequencies lo hi num_points
  { frequencies := freqs
    magnitude_dB := freqs.map (fun f => magnitude_dB_at R_cart L R_load C (omega f))
    phase_deg := freqs.map (fun f => phase_deg_at R_cart L R_load C (omega f))
    f_res_ideal := 1 / (2 * Real.pi * Real.sqrt (L * C))
    Q := Real.sqrt (L / C) / (R_cart + R_load) }

/-- Model of `np.argmax` on a real list: the first index whose entry is
greater than or equal to every entry (numpy documents that the first
occurrence of the maximum is returned); `0` on the empty list. -/
def np_argmax (l : List ℝ) : ℕ :=
  l.findIdx (fun x => decide (∀ y ∈ l, y ≤ x))

/-- Interpretation tiers of the console report. -/
inductive Tier where
  | significant : Tier
  | moderate : Tier
  | wellDamped : Tier
deriving DecidableEq

/-- The interpretation policy of the report, transcribed from the
`if peak_mag > 3.0 / elif peak_mag > 1.0 / else` chain. -/
def interpretationTier (peak_mag : ℝ) : Tier :=
  if peak_mag > 3.0 then Tier.significant
  else if peak_mag > 1.0 then Tier.moderate
  else Tier.wellDamped

/-- The damping line of the report, transcribed from the conditional
expression on `Q` in the console output. -/
def dampingLabel (Q : ℝ) : String :=
  if Q > 1 then "Under-damped (resonant peak visible)"
  else "Critically/Over-damped (minimal peak)"

/-- Computational content of one run of the report renderer. -/
structure RenderedReport where
  audible : FrequencyResponse
  extended : FrequencyResponse
  peak_idx : ℕ
  peak_freq : ℝ
  peak_mag : ℝ
  f_res : ℝ
  Q : ℝ
  damping : String
  interpretation : Tier

/-- The report renderer `plot_cartridge_response`, restricted to its
computational content: two calculator calls (audible then extended range),
peak statistics taken from the audible-range arrays, and the classification
lines of the console report. -/
def plot_cartridge_response (L_cart R_cart R_load C_total : ℝ) : RenderedReport :=
  let aud := cartridge_frequency_response L_cart R_cart R_load C_total 20 20000 2000
  let ext := cartridge_frequency_response L_cart R_cart R_load C_total 20 50000 3000
  let peak_idx := np_argmax aud.magnitude_dB
  { audible := aud
    extended := ext
    peak_idx := peak_idx
    peak_freq := aud.frequencies.getD peak_idx 0
    peak_mag := aud.magnitude_dB.getD peak_idx 0
    f_res := aud.f_res_ideal
    Q := aud.Q
    damping := dampingLabel aud.Q
    interpretation := interpretationTier (aud.magnitude_dB.getD peak_idx 0) }

/-- CLI scale option applied to the lowercased argument token:
`sys.argv[5].lower() in ['log', 'logarithmic', 'true', '1']`. -/
def cliUseLog (s : String) : Bool :=
  s ∈ ["log", "logarithmic", "true", "1"]

/-- CLI phase option applied to the lowercased argument token:
`sys.argv[6].lower() in ['phase', 'true', '1', 'yes']`. -/
def cliShowPhase (s : String) : Bool :=
  s ∈ ["phase", "true", "1", "yes"]

/-- Interactive scale prompt applied to the stripped lowercased input:
`input(...).strip().lower() in ['', 'log', 'logarithmic']`. -/
def interactiveUseLog (s : String) : Bool :=
  s ∈ ["", "log", "logarithmic"]

/-- Interactive phase prompt applied to the stripped lowercased input:
`input(...).strip().lower() in ['', 'yes', 'y', 'true', '1']`. -/
def interactiveShowPhase (s : String) : Bool :=
  s ∈ ["", "yes", "y", "true", "1"]

/-- Load impedance in the closed form stated by the specification:
`R_load / (1 + i * omega * R_load * C)`. -/
def Z_load_spec (R_load C w : ℝ) : ℂ :=
  (R_load : ℂ) / (1 + Complex.I * (w : ℂ) * (R_load : ℂ) * (C : ℂ))

/-- Transfer function built from the closed-form load impedance of the
specification. -/
def H_spec (R_cart L R_load C w : ℝ) : ℂ :=
  Z_load_spec R_load C w / (Z_cart R_cart L w + Z_load_spec R_load C w)

/-- Squared modulus of the denominator of `H` as a quadratic polynomial in
`x = w^2`: the squared transfer magnitude is `R_load^2 / Dq (w^2)`. -/
def Dq (R_cart L R_load C x : ℝ) : ℝ :=
  (L * R_load * C)^2 * x^2
    + ((R_cart * R_load * C + L)^2 - 2 * (R_load + R_cart) * (L * R_load * C)) * x
    + (R_load + R_cart)^2

/-! ### Basic facts about the frequency grid -/

lemma logspacePoint_pos (a b : ℝ) (n i : ℕ) : 0 < logspacePoint a b n i :=
  Real.rpow_pos_of_pos (by norm_num) _

lemma frequencies_length (lo hi : ℝ) (n : ℕ) : (frequencies lo hi n).length = n := by
  simp [frequencies]

lemma frequencies_getD (lo hi : ℝ) {n i : ℕ} (h : i < n) :
    (frequencies lo hi n).getD i 0
      = logspacePoint (Real.logb 10 lo) (Real.logb 10 hi) n i := by
  have hlen : i < (frequencies lo hi n).length := by
    rw [frequencies_length]; exact h
  rw [List.getD_eq_get _ _ hlen]
  simp [frequencies]

lemma frequencies_getD_pos (lo hi : ℝ) {n i : ℕ} (h : i < n) :
    0 < (frequencies lo hi n).getD i 0 := by
  rw [frequencies_getD lo hi h]; exact logspacePoint_pos _ _ _ _

lemma logspacePoint_lt {a b : ℝ} (hab : a < b) {n : ℕ} (hn : 2 ≤ n)
    {i j : ℕ} (hij : i < j) :
    logspacePoint a b n i < logspacePoint a b n j := by
  unfold logspacePoint
  rw [Real.rpow_lt_rpow_left_iff (by norm_num : (1:ℝ) < 10)]
  have hn1 : (0:ℝ) < (n : ℝ) - 1 := by
    have h2 : (2:ℝ) ≤ (n:ℝ) := by exact_mod_cast hn
    linarith
  have hijR : (i:ℝ) < (j:ℝ) := by exact_mod_cast hij
  have hstep : 0 < (b - a) / ((n:ℝ) - 1) := div_pos (by linarith) hn1
  have h1 : (i:ℝ) * ((b - a) / ((n:ℝ) - 1)) < (j:ℝ) * ((b - a) / ((n:ℝ) - 1)) :=
    mul_lt_mul_of_pos_right hijR hstep
  rw [mul_div_assoc, mul_div_assoc]
  linarith

lemma frequencies_getD_lt (lo hi : ℝ) (hlo : 0 < lo) (hlohi : lo < hi)
    {n i j : ℕ} (hij : i < j) (hjn : j < n) :
    (frequencies lo hi n).getD i 0 < (frequencies lo hi n).getD j 0 := by
  have hn : 2 ≤ n := by omega
  have hab : Real.logb 10 lo < Real.logb 10 hi :=
    Real.logb_lt_logb (by norm_num) hlo hlohi
  rw [frequencies_getD lo hi (lt_trans hij hjn), frequencies_getD lo hi hjn]
  exact logspacePoint_lt hab hn hij

lemma logspacePoint_closed (lo hi : ℝ) (hlo : 0 < lo) (hhi : 0 < hi) (n i : ℕ) :
    logspacePoint (Real.logb 10 lo) (Real.logb 10 hi) n i
      = lo * (hi / lo) ^ ((i : ℝ) / ((n : ℝ) - 1)) := by
  unfold logspacePoint
  have h10 : (0:ℝ) < 10 := by norm_num
  have key : Real.logb 10 lo + (i:ℝ) * (Real.logb 10 hi - Real.logb 10 lo) / ((n:ℝ) - 1)
      = Real.logb 10 lo + (Real.logb 10 hi - Real.logb 10 lo) * ((i:ℝ) / ((n:ℝ) - 1)) := by
    ring
  rw [key, Real.rpow_add h10, Real.rpow_logb h10 (by norm_num) hlo,
    Real.rpow_mul (le_of_lt h10), Real.rpow_sub h10,
    Real.rpow_logb h10 (by norm_num) hhi, Real.rpow_logb h10 (by norm_num) hlo]

lemma frequencies_getD_closed (lo hi : ℝ) (hlo : 0 < lo) (hhi : 0 < hi)
    {n i : ℕ} (h : i < n) :
    (frequencies lo hi n).getD i 0 = lo * (hi / lo) ^ ((i : ℝ) / ((n : ℝ) - 1)) := by
  rw [frequencies_getD lo hi h, logspacePoint_closed lo hi hlo hhi]

lemma frequencies_pair {lo hi : ℝ} (hlo : 0 < lo) (hlohi : lo < hi) :
    frequencies lo hi 2 = [lo, hi] := by
  have hhi : 0 < hi := lt_trans hlo hlohi
  have hlo0 : lo ≠ 0 := ne_of_gt hlo
  have h0 : logspacePoint (Real.logb 10 lo) (Real.logb 10 hi) 2 0 = lo := by
    rw [logspacePoint_closed lo hi hlo hhi]
    norm_num
  have h1 : logspacePoint (Real.logb 10 lo) (Real.logb 10 hi) 2 1 = hi := by
    rw [logspacePoint_closed lo hi hlo hhi]
    norm_num
    rw [mul_comm, div_mul_cancel₀ _ hlo0]
  show (List.range 2).map (logspacePoint (Real.logb 10 lo) (Real.logb 10 hi) 2) = [lo, hi]
  rw [show List.range 2 = [0, 1] from rfl]
  simp [h0, h1]

/-! ### Projections of the calculator record -/

lemma cfr_frequencies (Lm Rc Rk Cp lo hi : ℝ) (n : ℕ) :
    (cartridge_frequency_response Lm Rc Rk Cp lo hi n).frequencies
      = frequencies lo hi n := rfl

lemma cfr_magnitude (Lm Rc Rk Cp lo hi : ℝ) (n : ℕ) :
    (cartridge_frequency_response Lm Rc Rk Cp lo hi n).magnitude_dB
      = (frequencies lo hi n).map
          (fun f => magnitude_dB_at Rc (Lm * 1e-3) (Rk * 1e3) (Cp * 1e-12) (omega f)) := rfl

lemma cfr_phase (Lm Rc Rk Cp lo hi : ℝ) (n : ℕ) :
    (cartridge_frequency_response Lm Rc Rk Cp lo hi n).phase_deg
      = (frequencies lo hi n).map
          (fun f => phase_deg_at Rc (Lm * 1e-3) (Rk * 1e3) (Cp * 1e-12) (omega f)) := rfl

lemma cfr_Q (Lm Rc Rk Cp lo hi : ℝ) (n : ℕ) :
    (cartridge_frequency_response Lm Rc Rk Cp lo hi n).Q
      = Real.sqrt ((Lm * 1e-3) / (Cp * 1e-12)) / (Rc + Rk * 1e3) := rfl

lemma cfr_f_res (Lm Rc Rk Cp lo hi : ℝ) (n : ℕ) :
    (cartridge_frequency_response Lm Rc Rk Cp lo hi n).f_res_ideal
      = 1 / (2 * Real.pi * Real.sqrt ((Lm * 1e-3) * (Cp * 1e-12))) := rfl

lemma getD_map_of_lt (f : ℝ → ℝ) (l : List ℝ) {i : ℕ} (h : i < l.length) :
    (l.map f).getD i 0 = f (l.getD i 0) := by
  rw [List.getD_eq_get _ _ (by simpa using h), List.getD_eq_get _ _ h]
  simp

/-- C2: the frequency array of the calculator has length `sampleCount`
(as do the magnitude and phase arrays), is strictly increasing, runs from
`low_Hz` to `high_Hz` inclusive, follows the geometric closed form
`low * (high/low) ^ (i/(n-1))`, has a constant ratio between consecutive
samples, and for `sampleCount = 2` is exactly the two-point list. -/
theorem C2_frequency_grid (Lm Rc Rk Cp lo hi : ℝ) (n : ℕ)
    (hn : 2 ≤ n) (hlo : 0 < lo) (hlohi : lo < hi) :
    (cartridge_frequency_response Lm Rc Rk Cp lo hi n).frequencies.length = n ∧
    (cartridge_frequency_response Lm Rc Rk Cp lo hi n).magnitude_dB.length = n ∧
    (cartridge_frequency_response Lm Rc Rk Cp lo hi n).phase_deg.length = n ∧
    (∀ i j : ℕ, i < j → j < n →
      (cartridge_frequency_response Lm Rc Rk Cp lo hi n).frequencies.getD i 0
        < (cartridge_frequency_response Lm Rc Rk Cp lo hi n).frequencies.getD j 0) ∧
    (cartridge_frequency_response Lm Rc Rk Cp lo hi n).frequencies.getD 0 0 = lo ∧
    (cartridge_frequency_response Lm Rc Rk Cp lo hi n).frequencies.getD (n - 1) 0 = hi ∧
    (∀ i : ℕ, i < n →
      (cartridge_frequency_response Lm Rc Rk Cp lo hi n).frequencies.getD i 0
        = lo * (hi / lo) ^ ((i : ℝ) / ((n : ℝ) - 1))) ∧
    (∀ i : ℕ, i + 1 < n →
      (cartridge_frequency_response Lm Rc Rk Cp lo hi n).frequencies.getD (i + 1) 0
          / (cartridge_frequency_response Lm Rc Rk Cp lo hi n).frequencies.getD i 0
        = (hi / lo) ^ ((1 : ℝ) / ((n : ℝ) - 1))) ∧
    (n = 2 → (cartridge_frequency_response Lm Rc Rk Cp lo hi n).frequencies = [lo, hi]) := by
  have hhi : 0 < hi := lt_trans hlo hlohi
  have hlo0 : lo ≠ 0 := ne_of_gt hlo
  have hr : 0 < hi / lo := div_pos hhi hlo
  have hn1 : ((n : ℝ) - 1) ≠ 0 := by
    have h2 : (2:ℝ) ≤ (n:ℝ) := by exact_mod_cast hn
    intro h; linarith
  have hfirst : (frequencies lo hi n).getD 0 0 = lo := by
    rw [frequencies_getD_closed lo hi hlo hhi (by omega)]
    norm_num
  have hlast : (frequencies lo hi n).getD (n - 1) 0 = hi := by
    rw [frequencies_getD_closed lo hi hlo hhi (by omega)]
    have hcast : ((n - 1 : ℕ) : ℝ) = (n : ℝ) - 1 := by
      have h1 : 1 ≤ n := by omega
      push_cast [h1]
      ring
    rw [hcast, div_self hn1, Real.rpow_one, mul_comm, div_mul_cancel₀ _ hlo0]
  refine ⟨?_, ?_, ?_, ?_, hfirst, hlast, ?_, ?_, ?_⟩
  · rw [cfr_frequencies, frequencies_length]
  · rw [cfr_magnitude, List.length_map, frequencies_length]
  · rw [cfr_phase, List.length_map, frequencies_length]
  · intro i j hij hjn
    exact frequencies_getD_lt lo hi hlo hlohi hij hjn
  · intro i hin
    exact frequencies_getD_closed lo hi hlo hhi hin
  · intro i hin
    rw [cfr_frequencies]
    rw [frequencies_getD_closed lo hi hlo hhi hin,
      frequencies_getD_closed lo hi hlo hhi (by omega)]
    rw [mul_div_mul_left _ _ hlo0, ← Real.rpow_sub hr]
    congr 1
    rw [div_sub_div_same]
    push_cast
    ring_nf
  · intro hn2
    subst hn2
    rw [cfr_frequencies]
    exact frequencies_pair hlo hlohi

/-- Witness for C2 at the audible two-point sweep. -/
theorem C2_frequency_grid_witness :
    (cartridge_frequency_response 500 600 47 200 20 20000 2).frequencies = [20, 20000] :=
  (C2_frequency_grid 500 600 47 200 20 20000 2 (by norm_num) (by norm_num)
    (by norm_num)).2.2.2.2.2.2.2.2 rfl

/-! ### Complex-impedance lemmas -/

lemma ne_zero_of_re_ne {z : ℂ} (h : z.re ≠ 0) : z ≠ 0 :=
  fun hz => h (by rw [hz]; simp)

lemma Z_cap_eq (C w : ℝ) : Z_cap C w = -Complex.I * (((w * C : ℝ) : ℂ))⁻¹ := by
  unfold Z_cap
  rw [one_div, mul_assoc, mul_inv, Complex.inv_I]
  push_cast
  ring

lemma I_mul_ofReal_ne_zero {w C : ℝ} (hw : w ≠ 0) (hC : C ≠ 0) :
    Complex.I * (w : ℂ) * (C : ℂ) ≠ 0 :=
  mul_ne_zero (mul_ne_zero Complex.I_ne_zero (Complex.ofReal_ne_zero.2 hw))
    (Complex.ofReal_ne_zero.2 hC)

lemma re_R_add_Z_cap (R C w : ℝ) : ((R : ℂ) + Z_cap C w).re = R := by
  rw [Z_cap_eq]; simp

lemma R_add_Z_cap_ne_zero (C w : ℝ) {R : ℝ} (hR : R ≠ 0) : ((R : ℂ) + Z_cap C w) ≠ 0 :=
  ne_zero_of_re_ne (by rw [re_R_add_Z_cap]; exact hR)

lemma spec_den_ne_zero (w R C : ℝ) :
    (1 : ℂ) + Complex.I * (w : ℂ) * (R : ℂ) * (C : ℂ) ≠ 0 :=
  ne_zero_of_re_ne (by simp)

lemma den_factor {w C : ℝ} (R : ℝ) (hw : w ≠ 0) (hC : C ≠ 0) :
    (R : ℂ) + Z_cap C w = (1 + Complex.I * (w : ℂ) * (R : ℂ) * (C : ℂ)) * Z_cap C w := by
  have hwC : ((w : ℂ) * (C : ℂ)) ≠ 0 :=
    mul_ne_zero (Complex.ofReal_ne_zero.2 hw) (Complex.ofReal_ne_zero.2 hC)
  rw [Z_cap_eq]
  push_cast
  linear_combination ((R:ℂ) * (w:ℂ) * (C:ℂ) * (((w:ℂ) * (C:ℂ))⁻¹)) * Complex.I_sq
    - (R:ℂ) * (mul_inv_cancel₀ hwC)

lemma Z_cap_ne_zero {C w : ℝ} (hw : w ≠ 0) (hC : C ≠ 0) : Z_cap C w ≠ 0 := by
  rw [Z_cap_eq]
  have hwC : ((w * C : ℝ) : ℂ) ≠ 0 := Complex.ofReal_ne_zero.2 (mul_ne_zero hw hC)
  exact mul_ne_zero (neg_ne_zero.2 Complex.I_ne_zero) (inv_ne_zero hwC)

lemma Z_load_eq_spec {R C w : ℝ} (hw : w ≠ 0) (hC : C ≠ 0) :
    Z_load R C w = Z_load_spec R C w := by
  unfold Z_load Z_load_spec
  rw [den_factor R hw hC, mul_comm ((R : ℂ)) (Z_cap C w),
    mul_comm (1 + Complex.I * (w : ℂ) * (R : ℂ) * (C : ℂ)) (Z_cap C w)]
  exact mul_div_mul_left _ _ (Z_cap_ne_zero hw hC)

lemma H_eq_spec (Rc L : ℝ) {R C w : ℝ} (hw : w ≠ 0) (hC : C ≠ 0) :
    H Rc L R C w = H_spec Rc L R C w := by
  unfold H H_spec
  rw [Z_load_eq_spec hw hC]

lemma phase_deg_at_le (Rc L R C w : ℝ) : phase_deg_at Rc L R C w ≤ 180 := by
  unfold phase_deg_at
  have h1 : (H Rc L R C w).arg ≤ Real.pi := Complex.arg_le_pi _
  have h2 : (0:ℝ) < 180 / Real.pi := by positivity
  have h3 : (H Rc L R C w).arg * (180 / Real.pi) ≤ Real.pi * (180 / Real.pi) :=
    mul_le_mul_of_nonneg_right h1 (le_of_lt h2)
  have h4 : Real.pi * (180 / Real.pi) = 180 := by
    field_simp
  rw [mul_div_assoc]
  linarith

lemma neg_lt_phase_deg_at (Rc L R C w : ℝ) : -180 < phase_deg_at Rc L R C w := by
  unfold phase_deg_at
  have h1 : -Real.pi < (H Rc L R C w).arg := Complex.neg_pi_lt_arg _
  have h2 : (0:ℝ) < 180 / Real.pi := by positivity
  have h3 : -Real.pi * (180 / Real.pi) < (H Rc L R C w).arg * (180 / Real.pi) :=
    mul_lt_mul_of_pos_right h1 h2
  have h4 : -Real.pi * (180 / Real.pi) = -180 := by
    field_simp
    ring
  rw [mul_div_assoc]
  linarith

lemma re_Z_cart (Rc L w : ℝ) : (Z_cart Rc L w).re = Rc := by
  unfold Z_cart; simp

lemma re_Z_load_spec_pos {R : ℝ} (C w : ℝ) (hR : 0 < R) :
    0 < (Z_load_spec R C w).re := by
  unfold Z_load_spec
  have hd := spec_den_ne_zero w R C
  have hns : 0 < Complex.normSq (1 + Complex.I * (w:ℂ) * (R:ℂ) * (C:ℂ)) :=
    Complex.normSq_pos.2 hd
  rw [Complex.div_re]
  have hre : ((1:ℂ) + Complex.I * (w:ℂ) * (R:ℂ) * (C:ℂ)).re = 1 := by simp
  rw [hre]
  simp only [Complex.ofReal_re, Complex.ofReal_im, zero_mul, zero_div, add_zero, mul_one]
  exact div_pos hR hns

lemma Z_load_spec_ne_zero {R : ℝ} (C w : ℝ) (hR : R ≠ 0) : Z_load_spec R C w ≠ 0 := by
  unfold Z_load_spec
  exact div_ne_zero (Complex.ofReal_ne_zero.2 hR) (spec_den_ne_zero w R C)

/-- C1: the calculator returns `20*log10|H|` and the principal-value phase in
degrees of the spec transfer function built on the closed-form load
impedance, at the angular frequency `2*pi*frequencies[i]` of every sample,
and the code parallel-combination load impedance agrees with the closed
form there. -/
theorem C1_transfer_function (Lm Rc Rk Cp lo hi : ℝ) (n i : ℕ)
    (hL : 0 < Lm) (hCp : 0 < Cp) (hRk : 0 < Rk) (hRc : 0 ≤ Rc)
    (hlo : 0 < lo) (hhi : 0 < hi) (hin : i < n) :
    (cartridge_frequency_response Lm Rc Rk Cp lo hi n).magnitude_dB.getD i 0
      = 20 * Real.logb 10 (Complex.abs (H_spec Rc (Lm * 1e-3) (Rk * 1e3) (Cp * 1e-12)
          (2 * Real.pi *
            ((cartridge_frequency_response Lm Rc Rk Cp lo hi n).frequencies.getD i 0)))) ∧
    (cartridge_frequency_response Lm Rc Rk Cp lo hi n).phase_deg.getD i 0
      = (H_spec Rc (Lm * 1e-3) (Rk * 1e3) (Cp * 1e-12)
          (2 * Real.pi *
            ((cartridge_frequency_response Lm Rc Rk Cp lo hi n).frequencies.getD i 0))).arg
          * 180 / Real.pi ∧
    -180 < (cartridge_frequency_response Lm Rc Rk Cp lo hi n).phase_deg.getD i 0 ∧
    (cartridge_frequency_response Lm Rc Rk Cp lo hi n).phase_deg.getD i 0 ≤ 180 ∧
    Z_load (Rk * 1e3) (Cp * 1e-12)
        (2 * Real.pi *
          ((cartridge_frequency_response Lm Rc Rk Cp lo hi n).frequencies.getD i 0))
      = Z_load_spec (Rk * 1e3) (Cp * 1e-12)
        (2 * Real.pi *
          ((cartridge_frequency_response Lm Rc Rk Cp lo hi n).frequencies.getD i 0)) := by
  have hlen : i < (frequencies lo hi n).length := by
    rw [frequencies_length]; exact hin
  have hfpos : 0 < (frequencies lo hi n).getD i 0 := frequencies_getD_pos lo hi hin
  have hwpos : 0 < 2 * Real.pi * ((frequencies lo hi n).getD i 0) := by
    have := Real.pi_pos; positivity
  have hw0 : 2 * Real.pi * ((frequencies lo hi n).getD i 0) ≠ 0 := ne_of_gt hwpos
  have hC0 : Cp * 1e-12 ≠ 0 := by positivity
  have hR0 : Rk * 1e3 ≠ 0 := by positivity
  rw [cfr_frequencies, cfr_magnitude, cfr_phase,
    getD_map_of_lt _ _ hlen, getD_map_of_lt _ _ hlen]
  unfold magnitude_dB_at phase_deg_at omega
  refine ⟨?_, ?_, ?_, ?_, ?_⟩
  · rw [H_eq_spec Rc (Lm * 1e-3) hw0 hC0]
  · rw [H_eq_spec Rc (Lm * 1e-3) hw0 hC0]
  · exact neg_lt_phase_deg_at _ _ _ _ _
  · exact phase_deg_at_le _ _ _ _ _
  · exact Z_load_eq_spec hw0 hC0

/-- Witness for C1 at the default cartridge parameters, two-point sweep,
first sample. -/
theorem C1_transfer_function_witness :
    Z_load (47 * 1e3) (200 * 1e-12)
        (2 * Real.pi *
          ((cartridge_frequency_response 500 600 47 200 20 20000 2).frequencies.getD 0 0))
      = Z_load_spec (47 * 1e3) (200 * 1e-12)
        (2 * Real.pi *
          ((cartridge_frequency_response 500 600 47 200 20 20000 2).frequencies.getD 0 0)) :=
  (C1_transfer_function 500 600 47 200 20 20000 2 0 (by norm_num) (by norm_num)
    (by norm_num) (by norm_num) (by norm_num) (by norm_num) (by norm_num)).2.2.2.2

/-- C7: at every swept frequency none of the divisions of the calculator has
a vanishing denominator (`i*w*C`, the parallel-combination denominator
`R_load + Z_cap`, and `Z_cart + Z_load`, whose real part is strictly
positive, are all nonzero) and `|H|` is strictly positive. -/
theorem C7_no_degenerate_division (Lm Rc Rk Cp lo hi : ℝ) (n i : ℕ)
    (hL : 0 < Lm) (hCp : 0 < Cp) (hRk : 0 < Rk) (hRc : 0 ≤ Rc)
    (hlo : 0 < lo) (hhi : 0 < hi) (hin : i < n) :
    Complex.I * ((2 * Real.pi * ((frequencies lo hi n).getD i 0) : ℝ) : ℂ)
        * ((Cp * 1e-12 : ℝ) : ℂ) ≠ 0 ∧
    ((Rk * 1e3 : ℝ) : ℂ)
        + Z_cap (Cp * 1e-12) (2 * Real.pi * ((frequencies lo hi n).getD i 0)) ≠ 0 ∧
    0 < (Z_cart Rc (Lm * 1e-3) (2 * Real.pi * ((frequencies lo hi n).getD i 0))
        + Z_load (Rk * 1e3) (Cp * 1e-12)
            (2 * Real.pi * ((frequencies lo hi n).getD i 0))).re ∧
    0 < Complex.abs (H Rc (Lm * 1e-3) (Rk * 1e3) (Cp * 1e-12)
        (2 * Real.pi * ((frequencies lo hi n).getD i 0))) := by
  have hfpos : 0 < (frequencies lo hi n).getD i 0 := frequencies_getD_pos lo hi hin
  have hwpos : 0 < 2 * Real.pi * ((frequencies lo hi n).getD i 0) := by
    have := Real.pi_pos; positivity
  have hw0 : 2 * Real.pi * ((frequencies lo hi n).getD i 0) ≠ 0 := ne_of_gt hwpos
  have hC0 : Cp * 1e-12 ≠ 0 := by positivity
  have hRpos : 0 < Rk * 1e3 := by positivity
  have hR0 : Rk * 1e3 ≠ 0 := ne_of_gt hRpos
  have hsum_re : 0 < (Z_cart Rc (Lm * 1e-3) (2 * Real.pi * ((frequencies lo hi n).getD i 0))
      + Z_load (Rk * 1e3) (Cp * 1e-12)
          (2 * Real.pi * ((frequencies lo hi n).getD i 0))).re := by
    rw [Z_load_eq_spec hw0 hC0, Complex.add_re, re_Z_cart]
    have := re_Z_load_spec_pos (Cp * 1e-12)
      (2 * Real.pi * ((frequencies lo hi n).getD i 0)) hRpos
    linarith
  refine ⟨I_mul_ofReal_ne_zero hw0 hC0, R_add_Z_cap_ne_zero _ _ hR0, hsum_re, ?_⟩
  have hsum_ne : Z_cart Rc (Lm * 1e-3) (2 * Real.pi * ((frequencies lo hi n).getD i 0))
      + Z_load (Rk * 1e3) (Cp * 1e-12)
          (2 * Real.pi * ((frequencies lo hi n).getD i 0)) ≠ 0 :=
    ne_zero_of_re_ne (ne_of_gt hsum_re)
  have hZl_ne : Z_load (Rk * 1e3) (Cp * 1e-12)
      (2 * Real.pi * ((frequencies lo hi n).getD i 0)) ≠ 0 := by
    rw [Z_load_eq_spec hw0 hC0]
    exact Z_load_spec_ne_zero _ _ hR0
  have hH_ne : H Rc (Lm * 1e-3) (Rk * 1e3) (Cp * 1e-12)
      (2 * Real.pi * ((frequencies lo hi n).getD i 0)) ≠ 0 := by
    unfold H
    exact div_ne_zero hZl_ne hsum_ne
  exact Complex.abs.pos hH_ne

/-- Witness for C7 at the default parameters, two-point sweep, first sample. -/
theorem C7_no_degenerate_division_witness :
    0 < Complex.abs (H 600 (500 * 1e-3) (47 * 1e3) (200 * 1e-12)
        (2 * Real.pi * ((frequencies 20 20000 2).getD 0 0))) :=
  (C7_no_degenerate_division 500 600 47 200 20 20000 2 0 (by norm_num) (by norm_num)
    (by norm_num) (by norm_num) (by norm_num) (by norm_num) (by norm_num)).2.2.2

/-! ### The argmax model -/

lemma exists_max_mem (l : List ℝ) (h : l ≠ []) : ∃ x ∈ l, ∀ y ∈ l, y ≤ x := by
  induction l with
  | nil => exact absurd rfl h
  | cons a t ih =>
    rcases eq_or_ne t [] with rfl | ht
    · refine ⟨a, List.mem_cons_self a [], ?_⟩
      intro y hy
      rw [List.mem_singleton] at hy
      rw [hy]
    · obtain ⟨x, hx, hmax⟩ := ih ht
      rcases le_total a x with hax | hxa
      · refine ⟨x, List.mem_cons_of_mem a hx, ?_⟩
        intro y hy
        rcases List.mem_cons.1 hy with rfl | hyt
        · exact hax
        · exact hmax y hyt
      · refine ⟨a, List.mem_cons_self a t, ?_⟩
        intro y hy
        rcases List.mem_cons.1 hy with rfl | hyt
        · exact le_refl y
        · exact le_trans (hmax y hyt) hxa

lemma np_argmax_lt_length {l : List ℝ} (h : l ≠ []) : np_argmax l < l.length := by
  obtain ⟨x, hx, hmax⟩ := exists_max_mem l h
  exact List.findIdx_lt_length_of_exists ⟨x, hx, by simpa using hmax⟩

lemma getD_le_np_argmax {l : List ℝ} (h : l ≠ []) {j : ℕ} (hj : j < l.length) :
    l.getD j 0 ≤ l.getD (np_argmax l) 0 := by
  have hlt : l.findIdx (fun x => decide (∀ y ∈ l, y ≤ x)) < l.length :=
    np_argmax_lt_length h
  have hp := List.findIdx_get (w := hlt)
  simp only [decide_eq_true_eq] at hp
  rw [List.getD_eq_get _ _ hj, List.getD_eq_get _ _ (np_argmax_lt_length h)]
  exact hp _ (List.get_mem l j hj)

lemma np_argmax_cons_eq_zero {a : ℝ} {t : List ℝ} (h : ∀ y ∈ a :: t, y ≤ a) :
    np_argmax (a :: t) = 0 := by
  unfold np_argmax
  have ht : ∀ y ∈ t, y ≤ a := fun y hy => h y (List.mem_cons_of_mem a hy)
  have haa : a ≤ a := le_refl a
  simp [List.findIdx_cons, ht, haa]
  rw [decide_eq_true ht]
  rfl

set_option maxRecDepth 10000 in
/-- C6: the renderer evaluates the calculator with the same circuit
parameters on the audible range (20 to 20000 Hz, 2000 samples) and on the
extended range (20 to 50000 Hz, 3000 samples), and the peak frequency and
peak magnitude it reports are the entries of the audible-range arrays at
the index of the global maximum of the audible magnitude array. -/
theorem C6_renderer_calls (Lm Rc Rk Cp : ℝ) :
    (plot_cartridge_response Lm Rc Rk Cp).audible
        = cartridge_frequency_response Lm Rc Rk Cp 20 20000 2000 ∧
    (plot_cartridge_response Lm Rc Rk Cp).extended
        = cartridge_frequency_response Lm Rc Rk Cp 20 50000 3000 ∧
    (plot_cartridge_response Lm Rc Rk Cp).peak_idx
        = np_argmax (cartridge_frequency_response Lm Rc Rk Cp 20 20000 2000).magnitude_dB ∧
    (plot_cartridge_response Lm Rc Rk Cp).peak_freq
        = (cartridge_frequency_response Lm Rc Rk Cp 20 20000 2000).frequencies.getD
            (plot_cartridge_response Lm Rc Rk Cp).peak_idx 0 ∧
    (plot_cartridge_response Lm Rc Rk Cp).peak_mag
        = (cartridge_frequency_response Lm Rc Rk Cp 20 20000 2000).magnitude_dB.getD
            (plot_cartridge_response Lm Rc Rk Cp).peak_idx 0 ∧
    (plot_cartridge_response Lm Rc Rk Cp).peak_idx
        < (cartridge_frequency_response Lm Rc Rk Cp 20 20000 2000).magnitude_dB.length ∧
    (∀ j : ℕ,
      j < (cartridge_frequency_response Lm Rc Rk Cp 20 20000 2000).magnitude_dB.length →
      (cartridge_frequency_response Lm Rc Rk Cp 20 20000 2000).magnitude_dB.getD j 0
        ≤ (plot_cartridge_response Lm Rc Rk Cp).peak_mag) := by
  have hlen : (cartridge_frequency_response Lm Rc Rk Cp 20 20000 2000).magnitude_dB.length
      = 2000 := by
    rw [cfr_magnitude, List.length_map, frequencies_length]
  have hne : (cartridge_frequency_response Lm Rc Rk Cp 20 20000 2000).magnitude_dB ≠ [] := by
    intro h
    rw [h] at hlen
    simp at hlen
  exact ⟨rfl, rfl, rfl, rfl, rfl, np_argmax_lt_length hne,
    fun j hj => getD_le_np_argmax hne hj⟩

set_option maxRecDepth 10000 in
/-- Witness for C6 at the default parameters. -/
theorem C6_renderer_calls_witness :
    (plot_cartridge_response 500 600 47 200).audible
        = cartridge_frequency_response 500 600 47 200 20 20000 2000 ∧
    (plot_cartridge_response 500 600 47 200).extended
        = cartridge_frequency_response 500 600 47 200 20 50000 3000 :=
  ⟨(C6_renderer_calls 500 600 47 200).1, (C6_renderer_calls 500 600 47 200).2.1⟩

/-- C3: the returned quality factor equals `sqrt(L/C) / (R_cart + R_load)`
in SI units and is independent of the frequency range and sample count. -/
theorem C3_quality_factor (Lm Rc Rk Cp lo hi lo2 hi2 : ℝ) (n n2 : ℕ)
    (hL : 0 < Lm) (hCp : 0 < Cp) (hRk : 0 < Rk) (hRc : 0 ≤ Rc) :
    (cartridge_frequency_response Lm Rc Rk Cp lo hi n).Q
        = Real.sqrt ((Lm * 1e-3) / (Cp * 1e-12)) / (Rc + Rk * 1e3) ∧
    (cartridge_frequency_response Lm Rc Rk Cp lo hi n).Q
        = (cartridge_frequency_response Lm Rc Rk Cp lo2 hi2 n2).Q :=
  ⟨rfl, rfl⟩

/-- Witness for C3 at the default parameters and both standard sweeps. -/
theorem C3_quality_factor_witness :
    (cartridge_frequency_response 500 600 47 200 20 20000 2000).Q
        = Real.sqrt ((500 * 1e-3) / (200 * 1e-12)) / (600 + 47 * 1e3) :=
  (C3_quality_factor 500 600 47 200 20 20000 20 50000 2000 3000
    (by norm_num) (by norm_num) (by norm_num) (by norm_num)).1

/-- C4: the returned ideal resonance equals `1 / (2*pi*sqrt(L*C))` in SI
units and is independent of the frequency bounds and sample count. -/
theorem C4_ideal_resonance (Lm Rc Rk Cp lo hi lo2 hi2 : ℝ) (n n2 : ℕ)
    (hL : 0 < Lm) (hCp : 0 < Cp) :
    (cartridge_frequency_response Lm Rc Rk Cp lo hi n).f_res_ideal
        = 1 / (2 * Real.pi * Real.sqrt ((Lm * 1e-3) * (Cp * 1e-12))) ∧
    (cartridge_frequency_response Lm Rc Rk Cp lo hi n).f_res_ideal
        = (cartridge_frequency_response Lm Rc Rk Cp lo2 hi2 n2).f_res_ideal :=
  ⟨rfl, rfl⟩

/-- Witness for C4 at the default parameters and both standard sweeps. -/
theorem C4_ideal_resonance_witness :
    (cartridge_frequency_response 500 600 47 200 20 20000 2000).f_res_ideal
        = 1 / (2 * Real.pi * Real.sqrt ((500 * 1e-3) * (200 * 1e-12))) :=
  (C4_ideal_resonance 500 600 47 200 20 20000 20 50000 2000 3000
    (by norm_num) (by norm_num)).1

/-- C5 counterexample: a peak magnitude of exactly 3.0 dB does not fall
through to the well-damped confirmation; the second branch catches it and
selects the moderate tier. -/
theorem C5_counterexample :
    interpretationTier 3 = Tier.moderate ∧ interpretationTier 3 ≠ Tier.wellDamped := by
  have h : interpretationTier 3 = Tier.moderate := by
    unfold interpretationTier
    rw [if_neg (by norm_num), if_pos (by norm_num)]
  refine ⟨h, ?_⟩
  rw [h]
  decide

/-- C5 amended: the interpretation tier is a pure function of the peak
magnitude with strict thresholds evaluated top-down: significant exactly
above 3 dB, moderate exactly on (1, 3] (so exactly 3.0 dB selects the
moderate tier), and well-damped exactly at or below 1 dB (so exactly
1.0 dB falls through to the well-damped confirmation). -/
theorem C5_interpretation_tier (p : ℝ) :
    (interpretationTier p = Tier.significant ↔ 3 < p) ∧
    (interpretationTier p = Tier.moderate ↔ 1 < p ∧ p ≤ 3) ∧
    (interpretationTier p = Tier.wellDamped ↔ p ≤ 1) := by
  unfold interpretationTier
  have e3 : (3.0 : ℝ) = 3 := by norm_num
  have e1 : (1.0 : ℝ) = 1 := by norm_num
  rw [e3, e1]
  split_ifs with h3 h1
  · refine ⟨by simp [h3], ?_, ?_⟩
    · constructor
      · intro h
        exact absurd h (by decide)
      · rintro ⟨_, hp⟩
        exact absurd h3 (not_lt.2 hp)
    · constructor
      · intro h
        exact absurd h (by decide)
      · intro hp
        exact absurd h3 (not_lt.2 (le_trans hp (by norm_num)))
  · refine ⟨?_, by simp [h1, not_lt.1 h3], ?_⟩
    · constructor
      · intro h
        exact absurd h (by decide)
      · intro hp
        exact absurd hp h3
    · constructor
      · intro h
        exact absurd h (by decide)
      · intro hp
        exact absurd h1 (not_lt.2 hp)
  · refine ⟨?_, ?_, by simp [not_lt.1 h1]⟩
    · constructor
      · intro h
        exact absurd h (by decide)
      · intro hp
        exact absurd hp h3
    · constructor
      · intro h
        exact absurd h (by decide)
      · rintro ⟨hp, _⟩
        exact absurd hp h1

/-- Witness for the amended C5 at exactly 3 dB. -/
theorem C5_interpretation_tier_witness :
    interpretationTier 3 = Tier.moderate :=
  ((C5_interpretation_tier 3).2.1).2 (by norm_num)

/-- C9: the damping line reads under-damped exactly when `Q > 1` and the
critically/over-damped line otherwise, including at exactly `Q = 1`. -/
theorem C9_damping_label (q : ℝ) :
    (dampingLabel q = "Under-damped (resonant peak visible)" ↔ 1 < q) ∧
    (dampingLabel q = "Critically/Over-damped (minimal peak)" ↔ q ≤ 1) ∧
    dampingLabel 1 = "Critically/Over-damped (minimal peak)" := by
  have hne : ("Under-damped (resonant peak visible)" : String)
      ≠ "Critically/Over-damped (minimal peak)" := by decide
  have hlabel1 : dampingLabel 1 = "Critically/Over-damped (minimal peak)" := by
    unfold dampingLabel
    rw [if_neg (by norm_num)]
  refine ⟨?_, ?_, hlabel1⟩
  · unfold dampingLabel
    split_ifs with h
    · exact iff_of_true rfl h
    · exact iff_of_false (fun habs => hne habs.symm) h
  · unfold dampingLabel
    split_ifs with h
    · exact iff_of_false hne (not_le.2 h)
    · exact iff_of_true rfl (not_lt.1 h)

/-- Witness for C9 at exactly `Q = 1`. -/
theorem C9_damping_label_witness :
    dampingLabel 1 = "Critically/Over-damped (minimal peak)" :=
  (C9_damping_label 1).2.2

/-- C10: interactively, the logarithmic axis is selected exactly on the
stripped lowercased inputs empty, log and logarithmic, and the phase
traces exactly on empty, yes, y, true and 1; hence true and 1, which
select the logarithmic axis in CLI mode, select the linear axis at the
interactive scale prompt, and y, rejected by the CLI phase option, enables
phase interactively. -/
theorem C10_interactive_parsing :
    (∀ s : String, interactiveUseLog s = true ↔
      (s = "" ∨ s = "log" ∨ s = "logarithmic")) ∧
    (∀ s : String, interactiveShowPhase s = true ↔
      (s = "" ∨ s = "yes" ∨ s = "y" ∨ s = "true" ∨ s = "1")) ∧
    cliUseLog "true" = true ∧ cliUseLog "1" = true ∧
    interactiveUseLog "true" = false ∧ interactiveUseLog "1" = false ∧
    cliShowPhase "y" = false ∧ interactiveShowPhase "y" = true := by
  refine ⟨?_, ?_, by decide, by decide, by decide, by decide, by decide, by decide⟩
  · intro s
    unfold interactiveUseLog
    simp [List.mem_cons]
  · intro s
    unfold interactiveShowPhase
    simp [List.mem_cons]

/-- Witness for C10 at the token true. -/
theorem C10_interactive_parsing_witness :
    cliUseLog "true" = true ∧ interactiveUseLog "true" = false :=
  ⟨C10_interactive_parsing.2.2.1, C10_interactive_parsing.2.2.2.2.1⟩

/-! ### The squared-magnitude denominator polynomial and the rolloff -/

lemma Dq_eq_sq_form (Rc L R C x : ℝ) :
    Dq Rc L R C x = (R + Rc - x * (L * R * C))^2 + x * (Rc * R * C + L)^2 := by
  unfold Dq
  ring

lemma Dq_pos {Rc L R C : ℝ} (hRc : 0 ≤ Rc) (hL : 0 < L) (hR : 0 < R) (hC : 0 < C)
    {x : ℝ} (hx : 0 ≤ x) : 0 < Dq Rc L R C x := by
  rw [Dq_eq_sq_form]
  rcases eq_or_lt_of_le hx with rfl | hx0
  · simp only [zero_mul, sub_zero, add_zero]
    positivity
  · have hS : 0 < Rc * R * C + L := by positivity
    have h1 : 0 < x * (Rc * R * C + L)^2 := mul_pos hx0 (pow_pos hS 2)
    have h2 : 0 ≤ (R + Rc - x * (L * R * C))^2 := sq_nonneg _
    linarith

lemma quad_mono_right {a B x1 x2 : ℝ} (ha : 0 < a) (h12 : x1 ≤ x2)
    (hv : 0 ≤ 2 * a * x1 + B) :
    a * x1^2 + B * x1 ≤ a * x2^2 + B * x2 := by
  nlinarith [mul_nonneg (sub_nonneg.2 h12) hv,
    mul_nonneg (mul_nonneg ha.le (sub_nonneg.2 h12)) (sub_nonneg.2 h12)]

lemma quad_strict_left {a B x1 x2 : ℝ} (ha : 0 < a) (h12 : x1 < x2)
    (hv : 2 * a * x2 + B ≤ 0) :
    a * x2^2 + B * x2 < a * x1^2 + B * x1 := by
  nlinarith [mul_nonneg (sub_nonneg.2 h12.le) (neg_nonneg.2 hv),
    mul_pos (mul_pos ha (sub_pos.2 h12)) (sub_pos.2 h12)]

lemma Dq_mono {Rc L R C : ℝ} (hL : 0 < L) (hR : 0 < R) (hC : 0 < C)
    {x1 x2 : ℝ} (h12 : x1 ≤ x2)
    (hv : 0 ≤ 2 * (L * R * C)^2 * x1
        + ((Rc * R * C + L)^2 - 2 * (R + Rc) * (L * R * C))) :
    Dq Rc L R C x1 ≤ Dq Rc L R C x2 := by
  unfold Dq
  have ha : 0 < (L * R * C)^2 := by positivity
  have h := quad_mono_right ha h12 hv
  linarith

lemma Dq_strict {Rc L R C : ℝ} (hL : 0 < L) (hR : 0 < R) (hC : 0 < C)
    {x1 x2 : ℝ} (h12 : x1 < x2)
    (hv : 2 * (L * R * C)^2 * x2
        + ((Rc * R * C + L)^2 - 2 * (R + Rc) * (L * R * C)) ≤ 0) :
    Dq Rc L R C x2 < Dq Rc L R C x1 := by
  unfold Dq
  have ha : 0 < (L * R * C)^2 := by positivity
  have h := quad_strict_left ha h12 hv
  linarith

lemma H_den_factor (Rc L R C w : ℝ) :
    (Z_cart Rc L w + Z_load_spec R C w) * (1 + Complex.I * (w:ℂ) * (R:ℂ) * (C:ℂ))
      = ((R + Rc - w^2 * (L * R * C) : ℝ) : ℂ)
        + ((w * (Rc * R * C + L) : ℝ) : ℂ) * Complex.I := by
  have hd := spec_den_ne_zero w R C
  unfold Z_cart Z_load_spec
  rw [add_mul, div_mul_cancel₀ _ hd]
  push_cast
  linear_combination ((w:ℂ)^2 * (L:ℂ) * (R:ℂ) * (C:ℂ)) * Complex.I_sq

lemma normSq_den (Rc L R C w : ℝ) :
    Complex.normSq (((R + Rc - w^2 * (L * R * C) : ℝ) : ℂ)
        + ((w * (Rc * R * C + L) : ℝ) : ℂ) * Complex.I)
      = Dq Rc L R C (w^2) := by
  rw [Complex.normSq_add_mul_I, Dq_eq_sq_form]
  ring

lemma normSq_H_spec {Rc L R C : ℝ} (hRc : 0 ≤ Rc) (hL : 0 < L) (hR : 0 < R)
    (hC : 0 < C) (w : ℝ) :
    Complex.normSq (H_spec Rc L R C w) = R^2 / Dq Rc L R C (w^2) := by
  have hd := spec_den_ne_zero w R C
  have hDpos : 0 < Dq Rc L R C (w^2) := Dq_pos hRc hL hR hC (sq_nonneg w)
  have hden_ne : ((R + Rc - w^2 * (L * R * C) : ℝ) : ℂ)
      + ((w * (Rc * R * C + L) : ℝ) : ℂ) * Complex.I ≠ 0 := by
    intro h
    have h2 := congrArg Complex.normSq h
    rw [normSq_den] at h2
    simp at h2
    exact absurd h2 (ne_of_gt hDpos)
  have hsum : Z_cart Rc L w + Z_load_spec R C w
      = (((R + Rc - w^2 * (L * R * C) : ℝ) : ℂ)
          + ((w * (Rc * R * C + L) : ℝ) : ℂ) * Complex.I)
        / (1 + Complex.I * (w:ℂ) * (R:ℂ) * (C:ℂ)) := by
    rw [eq_div_iff hd]
    exact H_den_factor Rc L R C w
  have hnsd : Complex.normSq (1 + Complex.I * (w:ℂ) * (R:ℂ) * (C:ℂ)) ≠ 0 :=
    (Complex.normSq_pos.2 hd).ne'
  unfold H_spec
  rw [hsum]
  unfold Z_load_spec
  rw [map_div₀ Complex.normSq, map_div₀ Complex.normSq, map_div₀ Complex.normSq,
    normSq_den, Complex.normSq_ofReal]
  field_simp
  ring

lemma magnitude_le_of_Dq {Rc L R C : ℝ} (hRc : 0 ≤ Rc) (hL : 0 < L) (hR : 0 < R)
    (hC : 0 < C) {w1 w2 : ℝ} (hw1 : 0 < w1) (hw2 : 0 < w2)
    (hD : Dq Rc L R C (w1^2) ≤ Dq Rc L R C (w2^2)) :
    magnitude_dB_at Rc L R C w2 ≤ magnitude_dB_at Rc L R C w1 := by
  unfold magnitude_dB_at
  rw [H_eq_spec Rc L (ne_of_gt hw2) (ne_of_gt hC),
    H_eq_spec Rc L (ne_of_gt hw1) (ne_of_gt hC)]
  have hD1 : 0 < Dq Rc L R C (w1^2) := Dq_pos hRc hL hR hC (sq_nonneg _)
  have hD2 : 0 < Dq Rc L R C (w2^2) := Dq_pos hRc hL hR hC (sq_nonneg _)
  have habs1 : Complex.abs (H_spec Rc L R C w1)
      = Real.sqrt (R^2 / Dq Rc L R C (w1^2)) := by
    rw [Complex.abs_apply, normSq_H_spec hRc hL hR hC]
  have habs2 : Complex.abs (H_spec Rc L R C w2)
      = Real.sqrt (R^2 / Dq Rc L R C (w2^2)) := by
    rw [Complex.abs_apply, normSq_H_spec hRc hL hR hC]
  rw [habs1, habs2]
  have hq : R^2 / Dq Rc L R C (w2^2) ≤ R^2 / Dq Rc L R C (w1^2) := by
    rw [div_le_div_iff hD2 hD1]
    have h := mul_le_mul_of_nonneg_left hD (sq_nonneg R)
    linarith
  have hq2pos : 0 < R^2 / Dq Rc L R C (w2^2) := div_pos (pow_pos hR 2) hD2
  have hsq := Real.sqrt_le_sqrt hq
  have hpos2 : 0 < Real.sqrt (R^2 / Dq Rc L R C (w2^2)) := Real.sqrt_pos.2 hq2pos
  have hlog := Real.logb_le_logb_of_le (by norm_num : (1:ℝ) < 10) hpos2 hsq
  linarith [mul_le_mul_of_nonneg_left hlog (by norm_num : (0:ℝ) ≤ 20)]

lemma magnitude_lt_of_Dq {Rc L R C : ℝ} (hRc : 0 ≤ Rc) (hL : 0 < L) (hR : 0 < R)
    (hC : 0 < C) {w1 w2 : ℝ} (hw1 : 0 < w1) (hw2 : 0 < w2)
    (hD : Dq Rc L R C (w1^2) < Dq Rc L R C (w2^2)) :
    magnitude_dB_at Rc L R C w2 < magnitude_dB_at Rc L R C w1 := by
  unfold magnitude_dB_at
  rw [H_eq_spec Rc L (ne_of_gt hw2) (ne_of_gt hC),
    H_eq_spec Rc L (ne_of_gt hw1) (ne_of_gt hC)]
  have hD1 : 0 < Dq Rc L R C (w1^2) := Dq_pos hRc hL hR hC (sq_nonneg _)
  have hD2 : 0 < Dq Rc L R C (w2^2) := Dq_pos hRc hL hR hC (sq_nonneg _)
  have habs1 : Complex.abs (H_spec Rc L R C w1)
      = Real.sqrt (R^2 / Dq Rc L R C (w1^2)) := by
    rw [Complex.abs_apply, normSq_H_spec hRc hL hR hC]
  have habs2 : Complex.abs (H_spec Rc L R C w2)
      = Real.sqrt (R^2 / Dq Rc L R C (w2^2)) := by
    rw [Complex.abs_apply, normSq_H_spec hRc hL hR hC]
  rw [habs1, habs2]
  have hq : R^2 / Dq Rc L R C (w2^2) < R^2 / Dq Rc L R C (w1^2) := by
    rw [div_lt_div_iff hD2 hD1]
    have h := mul_lt_mul_of_pos_left hD (pow_pos hR 2)
    linarith
  have hq2pos : 0 < R^2 / Dq Rc L R C (w2^2) := div_pos (pow_pos hR 2) hD2
  have hsq := Real.sqrt_lt_sqrt (le_of_lt hq2pos) hq
  have hpos2 : 0 < Real.sqrt (R^2 / Dq Rc L R C (w2^2)) := Real.sqrt_pos.2 hq2pos
  have hlog := Real.logb_lt_logb (by norm_num : (1:ℝ) < 10) hpos2 hsq
  linarith [mul_lt_mul_of_pos_left hlog (by norm_num : (0:ℝ) < 20)]

lemma rolloff_key {Rc L R C : ℝ} (hRc : 0 ≤ Rc) (hL : 0 < L) (hR : 0 < R) (hC : 0 < C)
    {wk wi wj : ℝ} (hwk : 0 < wk) (hwi : 0 < wi) (hwj : 0 < wj)
    (hki : wk < wi) (hij : wi < wj)
    (hmax : magnitude_dB_at Rc L R C wi ≤ magnitude_dB_at Rc L R C wk) :
    magnitude_dB_at Rc L R C wj ≤ magnitude_dB_at Rc L R C wi := by
  by_cases hcond : 0 ≤ 2 * (L * R * C)^2 * wi^2
      + ((Rc * R * C + L)^2 - 2 * (R + Rc) * (L * R * C))
  · apply magnitude_le_of_Dq hRc hL hR hC hwi hwj
    apply Dq_mono hL hR hC (by nlinarith : wi^2 ≤ wj^2) hcond
  · push_neg at hcond
    exfalso
    have hsq : wk^2 < wi^2 := by nlinarith
    have hDlt : Dq Rc L R C (wi^2) < Dq Rc L R C (wk^2) :=
      Dq_strict hL hR hC hsq (le_of_lt hcond)
    have hmlt := magnitude_lt_of_Dq hRc hL hR hC hwi hwk hDlt
    linarith

/-- C8: the sampled magnitude array is monotonically non-increasing above
the resonant peak: for indices `peak <= i < j` within the sweep, the sample
at `j` does not exceed the sample at `i`. -/
theorem C8_rolloff_above_peak (Lm Rc Rk Cp lo hi : ℝ) (n : ℕ)
    (hL : 0 < Lm) (hRc : 0 ≤ Rc) (hRk : 0 < Rk) (hCp : 0 < Cp)
    (hlo : 0 < lo) (hlohi : lo < hi) {i j : ℕ}
    (hki : np_argmax (cartridge_frequency_response Lm Rc Rk Cp lo hi n).magnitude_dB ≤ i)
    (hij : i < j) (hjn : j < n) :
    (cartridge_frequency_response Lm Rc Rk Cp lo hi n).magnitude_dB.getD j 0
      ≤ (cartridge_frequency_response Lm Rc Rk Cp lo hi n).magnitude_dB.getD i 0 := by
  have hL' : 0 < Lm * 1e-3 := by positivity
  have hR' : 0 < Rk * 1e3 := by positivity
  have hC' : 0 < Cp * 1e-12 := by positivity
  have hin : i < n := lt_trans hij hjn
  have hlenm : (cartridge_frequency_response Lm Rc Rk Cp lo hi n).magnitude_dB.length
      = n := by
    rw [cfr_magnitude, List.length_map, frequencies_length]
  have hne : (cartridge_frequency_response Lm Rc Rk Cp lo hi n).magnitude_dB ≠ [] := by
    intro h
    rw [h] at hlenm
    simp at hlenm
    omega
  have hmag : ∀ m : ℕ, m < n →
      (cartridge_frequency_response Lm Rc Rk Cp lo hi n).magnitude_dB.getD m 0
        = magnitude_dB_at Rc (Lm * 1e-3) (Rk * 1e3) (Cp * 1e-12)
            (omega ((frequencies lo hi n).getD m 0)) := by
    intro m hm
    rw [cfr_magnitude, getD_map_of_lt _ _ (by rw [frequencies_length]; exact hm)]
  have hwm : ∀ m : ℕ, m < n → 0 < omega ((frequencies lo hi n).getD m 0) := by
    intro m hm
    have h := frequencies_getD_pos lo hi hm
    unfold omega
    have hp := Real.pi_pos
    positivity
  have hwlt : ∀ m1 m2 : ℕ, m1 < m2 → m2 < n →
      omega ((frequencies lo hi n).getD m1 0) < omega ((frequencies lo hi n).getD m2 0) := by
    intro m1 m2 h12 h2n
    unfold omega
    exact mul_lt_mul_of_pos_left (frequencies_getD_lt lo hi hlo hlohi h12 h2n)
      (by have hp := Real.pi_pos; positivity)
  have hkn : np_argmax (cartridge_frequency_response Lm Rc Rk Cp lo hi n).magnitude_dB
      < n := by
    have hlt := np_argmax_lt_length hne
    rw [hlenm] at hlt
    exact hlt
  rcases eq_or_lt_of_le hki with hik | hik
  · rw [← hik]
    exact getD_le_np_argmax hne (by rw [hlenm]; exact hjn)
  · have hilen : i < (cartridge_frequency_response Lm Rc Rk Cp lo hi n).magnitude_dB.length := by
      rw [hlenm]; exact hin
    have h1 := getD_le_np_argmax hne hilen
    rw [hmag i hin, hmag _ hkn] at h1
    rw [hmag j hjn, hmag i hin]
    exact rolloff_key hRc hL' hR' hC'
      (hwm _ hkn) (hwm i hin) (hwm j hjn)
      (hwlt _ i hik hin) (hwlt i j hij hjn) h1

/-- Witness for C8: an over-damped configuration on a two-point sweep, where
the peak sits at the first sample and the second sample does not exceed it. -/
theorem C8_rolloff_above_peak_witness :
    (cartridge_frequency_response 1000 0 1 1 20 20000 2).magnitude_dB.getD 1 0
      ≤ (cartridge_frequency_response 1000 0 1 1 20 20000 2).magnitude_dB.getD 0 0 := by
  have hmono : magnitude_dB_at 0 (1000 * 1e-3) (1 * 1e3) (1 * 1e-12) (omega 20000)
      ≤ magnitude_dB_at 0 (1000 * 1e-3) (1 * 1e3) (1 * 1e-12) (omega 20) := by
    have hw1 : (0:ℝ) < omega 20 := by
      unfold omega
      have hp := Real.pi_pos
      positivity
    have hw2 : (0:ℝ) < omega 20000 := by
      unfold omega
      have hp := Real.pi_pos
      positivity
    apply magnitude_le_of_Dq (by norm_num) (by norm_num) (by norm_num) (by norm_num)
      hw1 hw2
    apply Dq_mono (by norm_num) (by norm_num) (by norm_num)
    · have hp := Real.pi_pos
      unfold omega
      nlinarith
    · have h2aw : (0:ℝ) ≤ 2 * ((1000 * 1e-3) * (1 * 1e3) * (1 * 1e-12))^2 * (omega 20)^2 := by
        positivity
      have hB : (0:ℝ) ≤ ((0:ℝ) * (1 * 1e3) * (1 * 1e-12) + 1000 * 1e-3)^2
          - 2 * ((1 * 1e3) + 0) * ((1000 * 1e-3) * (1 * 1e3) * (1 * 1e-12)) := by
        norm_num
      linarith
  have hpair : frequencies 20 20000 2 = [20, 20000] :=
    frequencies_pair (by norm_num) (by norm_num)
  have hmags : (cartridge_frequency_response 1000 0 1 1 20 20000 2).magnitude_dB
      = [magnitude_dB_at 0 (1000 * 1e-3) (1 * 1e3) (1 * 1e-12) (omega 20),
         magnitude_dB_at 0 (1000 * 1e-3) (1 * 1e3) (1 * 1e-12) (omega 20000)] := by
    rw [cfr_magnitude, hpair]
    rfl
  have hargz : np_argmax (cartridge_frequency_response 1000 0 1 1 20 20000 2).magnitude_dB
      = 0 := by
    rw [hmags]
    apply np_argmax_cons_eq_zero
    intro y hy
    rcases List.mem_cons.1 hy with rfl | hy2
    · exact le_refl _
    · rw [List.mem_singleton] at hy2
      rw [hy2]
      exact hmono
  exact C8_rolloff_above_peak 1000 0 1 1 20 20000 2 (by norm_num) (by norm_num)
    (by norm_num) (by norm_num) (by norm_num) (by norm_num)
    (by rw [hargz]) (by norm_num) (by norm_num)

end
